import Mathlib

/-!
Verification of the streaming adapter and extraction helpers of the
Streamlit Bedrock Playground (`src/app.py`).

Python values flowing through the adapter are modelled by a JSON-like
inductive type `JValue`; Python `dict`s are association lists in insertion
order (a real `dict` never holds a duplicate key, and `List.lookup` takes
the first binding, so the encoding is faithful on the reachable values).
Generators are modelled as fully-consumed runs: a run returns the ordered
list of yielded values, and, where a claim needs it, the intermediate sink
states or a terminal exception (`Option String` / `Except String`).
-/

/-- A Python value as seen by `app.py`: strings, numbers, booleans, `None`,
lists and dicts (dicts as association lists in insertion order). -/
inductive JValue where
  | null
  | bool (b : Bool)
  | num (n : Int)
  | str (s : String)
  | arr (items : List JValue)
  | obj (fields : List (String × JValue))
deriving Repr

/-- Python `d.get(k)` on a dict: the value bound to `k`, if any.
On a non-dict value there is no binding (callers that would raise
`AttributeError` in Python model that case separately, see `dictGet`). -/
def lookupJ (v : JValue) (k : String) : Option JValue :=
  match v with
  | .obj fields => List.lookup k fields
  | _ => none

/-- Python truthiness of a value (`bool(v)`): `None`, `False`, `0`, `""`,
`[]` and `{}` are falsy, everything else truthy. -/
def truthy : JValue → Bool
  | .null => false
  | .bool b => b
  | .num n => n != 0
  | .str s => !s.isEmpty
  | .arr items => !items.isEmpty
  | .obj fields => !fields.isEmpty

/-- Truthiness of the result of a `.get` call: `None` (absent key) is falsy. -/
def truthyOpt : Option JValue → Bool
  | some v => truthy v
  | none => false

/-- The match arm of `stream_wrapper`:
`case {"contentBlockDelta": {"delta": {"text": text}}} | str(text)`.
A mapping pattern matches any dict that has the listed keys (extra keys are
allowed at every level); the `str(text)` alternative matches a bare string.
Returns the bound `text` when the event matches, `none` when it is skipped. -/
def matchEvent (event : JValue) : Option JValue :=
  match lookupJ event "contentBlockDelta" with
  | some inner =>
    match lookupJ inner "delta" with
    | some d => lookupJ d "text"
    | none => match event with
              | .str s => some (.str s)
              | _ => none
  | none =>
    match event with
    | .str s => some (.str s)
    | _ => none

/-- The yielded fragments of `stream_wrapper(stream)`: the loop body yields
the bound `text` for every matching event and skips the rest. -/
def stream_wrapper : List JValue → List JValue
  | [] => []
  | e :: rest =>
    match matchEvent e with
    | some t => t :: stream_wrapper rest
    | none => stream_wrapper rest

/-- The run of `stream_wrapper(stream, write_copy)` with the optional sink threaded
through: for each matching event the text is first appended to the sink
(`write_copy.write(text)` — modelled as appending one write to the sink's
write sequence) when a sink is present, then yielded.  Returns the yielded
fragments and the final sink. -/
def streamWrapperSink : List JValue → Option (List JValue) → List JValue × Option (List JValue)
  | [], sink => ([], sink)
  | e :: rest, sink =>
    match matchEvent e with
    | some t =>
      let sink' := sink.map (fun s => s ++ [t])
      let out := streamWrapperSink rest sink'
      (t :: out.1, out.2)
    | none => streamWrapperSink rest sink

/-- The observable trace of a `stream_wrapper(stream, write_copy)` run with a
sink: one entry per yield, pairing the yielded fragment with the sink's
contents at the instant of the yield (the write happens before the yield,
and nothing else runs until the next item is pulled). -/
def streamTrace : List JValue → List JValue → List (JValue × List JValue)
  | [], _ => []
  | e :: rest, sink =>
    match matchEvent e with
    | some t => (t, sink ++ [t]) :: streamTrace rest (sink ++ [t])
    | none => streamTrace rest sink

/-- The source's `seek` attribute, as probed by
`hasattr(stream, "seek") and callable(stream.seek)`: it may be absent,
present but not callable, or callable — and a callable `seek(0)` may itself
raise (`failure = some msg`). -/
inductive SeekAttr where
  | absent
  | noncallable
  | callable (failure : Option String)
deriving Repr

/-- Whether the epilogue of `stream_wrapper` calls `stream.seek(0)`. -/
def seekInvoked : SeekAttr → Bool
  | .callable _ => true
  | _ => false

/-- The exception escaping `stream.seek(0)`, if the call is made and raises.
There is no `try` around the call, so such an exception propagates out of
the generator. -/
def seekError : SeekAttr → Option String
  | .callable (some e) => some e
  | _ => none

/-- The state of a source iterator: its event list, the read position
(`events.length` once drained; `seek(0)` resets it to `0`), and its `seek`
attribute. -/
structure SourceState where
  events : List JValue
  pos : Nat
  seek : SeekAttr
deriving Repr

/-- The world a `stream_wrapper` run can touch, plus an arbitrary unrelated
component `other` used to state the frame property. -/
structure World (α : Type) where
  source : SourceState
  sink : Option (List JValue)
  other : α

/-- A fully consumed run of `stream_wrapper(stream, write_copy)` over a
world: the `for` loop drains the source from its current position, each
matching event is written to the sink (if present) and yielded, and at
exhaustion `stream.seek(0)` is called when the attribute is callable —
resetting the position to `0` on success and propagating the exception on
failure.  Returns the yielded fragments, the terminal exception (if any),
and the final world. -/
def adapterRun {α : Type} (w : World α) : List JValue × Option String × World α :=
  let remaining := w.source.events.drop w.source.pos
  let out := streamWrapperSink remaining w.sink
  let drained := w.source.events.length
  let finalPos :=
    if seekInvoked w.source.seek && (seekError w.source.seek).isNone then 0 else drained
  (out.1, seekError w.source.seek,
    { source := { events := w.source.events, pos := finalPos, seek := w.source.seek },
      sink := out.2,
      other := w.other })

/-- A Python attribute-style `.get(k)` call: on a dict it returns the
binding (or `None`), on anything else it raises `AttributeError`. -/
def dictGet (v : JValue) (k : String) : Except String (Option JValue) :=
  match v with
  | .obj fields => .ok (List.lookup k fields)
  | _ => .error "AttributeError: get"

/-- The `for item in content` loop of `extract_assistant_text`: for each
item, `assert (text := item.get("text"))` (raising on a missing binding, a
non-dict item, or a falsy text such as `""`), then yield `text`.  A fully
consumed run returns the yielded texts or the first exception. -/
def extractTexts : List JValue → Except String (List JValue)
  | [] => .ok []
  | item :: rest =>
    match dictGet item "text" with
    | .error e => .error e
    | .ok none => .error "AssertionError: text"
    | .ok (some t) =>
      if truthy t then
        match extractTexts rest with
        | .error e => .error e
        | .ok ts => .ok (t :: ts)
      else .error "AssertionError: text"

/-- A fully consumed run of `extract_assistant_text(response)`.  If
`response.get("stream")` is truthy the run delegates to `stream_wrapper`
(a truthy non-list stream is not iterable here and raises).  Otherwise each
link of `output → message → content` is fetched with `.get` and asserted
truthy, then the content items are iterated (only list-valued content is
modelled; the repository only ever passes the API's list there). -/
def extract_assistant_text (response : JValue) : Except String (List JValue) :=
  match dictGet response "stream" with
  | .error e => .error e
  | .ok streamOpt =>
    if truthyOpt streamOpt then
      match streamOpt with
      | some (.arr events) => .ok (stream_wrapper events)
      | _ => .error "TypeError: stream not iterable"
    else
      match dictGet response "output" with
      | .error e => .error e
      | .ok none => .error "AssertionError: output"
      | .ok (some output) =>
        if truthy output then
          match dictGet output "message" with
          | .error e => .error e
          | .ok none => .error "AssertionError: message"
          | .ok (some message) =>
            if truthy message then
              match dictGet message "content" with
              | .error e => .error e
              | .ok none => .error "AssertionError: content"
              | .ok (some content) =>
                if truthy content then
                  match content with
                  | .arr items => extractTexts items
                  | _ => .error "TypeError: content not iterable"
                else .error "AssertionError: content"
            else .error "AssertionError: message"
        else .error "AssertionError: output"

/-- Assignment `d[k] = v` on a Python dict: an existing binding is updated
in place (insertion order kept), a new key is appended. -/
def dictSet (d : List (String × JValue)) (k : String) (v : JValue) : List (String × JValue) :=
  if d.any (fun p => p.1 == k) then
    d.map (fun p => if p.1 == k then (k, v) else p)
  else d ++ [(k, v)]

/-- The dict comprehension `{"text": item for item in text_items}`: starting
from the empty dict, each iteration assigns the constant key `"text"`. -/
def textItemsDict (text_items : List String) : List (String × JValue) :=
  text_items.foldl (fun d item => dictSet d "text" (.str item)) []

/-- The function `make_user_message(*text_items)`, which returns
`{"role": "user", "content": [{"text": item for item in text_items}]}` —
note the content list holds the single dict built by the comprehension. -/
def make_user_message (text_items : List String) : JValue :=
  .obj [("role", .str "user"), ("content", .arr [.obj (textItemsDict text_items)])]

/-- The `"content"` entry of a built message. -/
def contentOf (message : JValue) : Option JValue :=
  lookupJ message "content"

/-! ### Spec-side characterisations

These definitions follow the words of the claims, independently of the
loop transcriptions above, so that the claims can be stated as equalities
between the two. -/

/-- Spec-side shape test: the event matches the content-delta shape
`{"contentBlockDelta": {"delta": {"text": ...}}}`, i.e. the nested path is
present (extra keys allowed). -/
def isContentDelta (e : JValue) : Bool :=
  (((lookupJ e "contentBlockDelta").bind (fun i => lookupJ i "delta")).bind
    (fun d => lookupJ d "text")).isSome

/-- Spec-side shape test: the event is a bare text value. -/
def isBareText : JValue → Bool
  | .str _ => true
  | _ => false

/-- Spec side: the text value carried by a content-delta event (the value at
the nested path) or a bare text event, if the event is one of the two. -/
def specFragment (e : JValue) : Option JValue :=
  if isContentDelta e then
    ((lookupJ e "contentBlockDelta").bind (fun i => lookupJ i "delta")).bind
      (fun d => lookupJ d "text")
  else if isBareText e then some e
  else none

/-- Spec side: in input order, exactly the text values of the content-delta
events plus the bare text values, every other shape contributing nothing. -/
def specFragments (events : List JValue) : List JValue :=
  events.filterMap specFragment

/-- The `output → message → content` path of a response, followed with
`.get` at each link: `some` exactly when every link is present. -/
def pathContent (r : JValue) : Option JValue :=
  ((lookupJ r "output").bind (fun o => lookupJ o "message")).bind
    (fun m => lookupJ m "content")

/-- Whether a fully consumed run raised. -/
def isError {ε α : Type} : Except ε α → Bool
  | .error _ => true
  | .ok _ => false

/-! ### Sample events (used in the concrete instances below) -/

/-- A well-formed content-delta event carrying `t`. -/
def sampleDelta (t : String) : JValue :=
  .obj [("contentBlockDelta", .obj [("delta", .obj [("text", .str t)])])]

/-- A `messageStart` event. -/
def sampleStart : JValue := .obj [("messageStart", .obj [("role", .str "assistant")])]

/-- A `messageStop` event. -/
def sampleStop : JValue := .obj [("messageStop", .obj [("stopReason", .str "end_turn")])]

/-- A `metadata` event. -/
def sampleMeta : JValue :=
  .obj [("metadata", .obj [("usage", .obj [("totalTokens", .num 7)])])]

/-! ### Helper lemmas -/

/-- The loop's match arm agrees with the spec-side fragment extraction. -/
theorem matchEvent_eq_specFragment (e : JValue) : matchEvent e = specFragment e := by
  cases e with
  | obj fields =>
    simp only [matchEvent, specFragment, isContentDelta, isBareText, lookupJ]
    cases h1 : List.lookup "contentBlockDelta" fields with
    | none => simp
    | some inner =>
      simp only [h1, Option.bind_some]
      cases inner with
      | obj ifields =>
        cases h2 : List.lookup "delta" ifields with
        | none => simp [h2]
        | some d =>
          cases d with
          | obj dfields =>
            cases h3 : List.lookup "text" dfields with
            | none => simp [h2, h3]
            | some t => simp [h2, h3]
          | null => simp [h2]
          | bool b => simp [h2]
          | num n => simp [h2]
          | str s => simp [h2]
          | arr l => simp [h2]
      | null => simp
      | bool b => simp
      | num n => simp
      | str s => simp
      | arr l => simp
  | str s => rfl
  | null => rfl
  | bool b => rfl
  | num n => rfl
  | arr items => rfl

/-- The fragments yielded with a sink present are the fragments of the
sink-less run: the sink parameter never changes what is yielded. -/
theorem streamWrapperSink_fst (events : List JValue) (sink : Option (List JValue)) :
    (streamWrapperSink events sink).1 = stream_wrapper events := by
  induction events generalizing sink with
  | nil => rfl
  | cons e rest ih =>
    simp only [streamWrapperSink, stream_wrapper]
    cases matchEvent e with
    | none => exact ih sink
    | some t => simp [ih]

/-- The final sink of a run is the initial sink extended by every yielded
fragment, in order (and `none` stays `none`). -/
theorem streamWrapperSink_snd (events : List JValue) (sink : Option (List JValue)) :
    (streamWrapperSink events sink).2
      = sink.map (fun s => s ++ stream_wrapper events) := by
  induction events generalizing sink with
  | nil => cases sink <;> simp [streamWrapperSink, stream_wrapper]
  | cons e rest ih =>
    simp only [streamWrapperSink, stream_wrapper]
    cases matchEvent e with
    | none => exact ih sink
    | some t =>
      simp only [ih]
      cases sink <;> simp

/-- The fragments of the trace are exactly the yielded fragments. -/
theorem streamTrace_fst (events sink0 : List JValue) :
    (streamTrace events sink0).map Prod.fst = stream_wrapper events := by
  induction events generalizing sink0 with
  | nil => rfl
  | cons e rest ih =>
    simp only [streamTrace, stream_wrapper]
    cases matchEvent e with
    | none => exact ih sink0
    | some t => simp [ih]

/-- At the instant of the `i`-th yield, the sink holds its initial contents
followed by the first `i + 1` yielded fragments. -/
theorem streamTrace_get (events sink0 : List JValue) (i : Nat)
    (h : i < (streamTrace events sink0).length) :
    ((streamTrace events sink0).get ⟨i, h⟩).2
      = sink0 ++ (stream_wrapper events).take (i + 1) := by
  induction events generalizing sink0 i with
  | nil => simp [streamTrace] at h
  | cons e rest ih =>
    revert h
    simp only [streamTrace, stream_wrapper]
    cases he : matchEvent e with
    | none => exact fun h => ih sink0 i h
    | some t =>
      intro h
      cases i with
      | zero => simp
      | succ j =>
        simp only [List.get_cons_succ]
        rw [ih (sink0 ++ [t]) j (by simpa using h)]
        simp

/-- A successful lookup forces a nonempty dict, hence a truthy one. -/
theorem truthy_obj_of_lookup {fs : List (String × JValue)} {k : String} {v : JValue}
    (h : List.lookup k fs = some v) : truthy (.obj fs) = true := by
  cases fs with
  | nil => simp [List.lookup] at h
  | cons p rest => simp [truthy]

/-- Iterating single-key items `{"text": t}` with every `t` truthy yields
exactly the texts, in order. -/
theorem extractTexts_map (texts : List JValue) (ht : ∀ t ∈ texts, truthy t = true) :
    extractTexts (texts.map fun t => .obj [("text", t)]) = .ok texts := by
  induction texts with
  | nil => rfl
  | cons t rest ih =>
    have htt : truthy t = true := ht t (by simp)
    have hrest : ∀ x ∈ rest, truthy x = true := fun x hx => ht x (by simp [hx])
    simp only [List.map_cons, extractTexts, dictGet]
    simp [List.lookup, htt, ih hrest]

/-- If some item carries the empty-string text, the content loop raises. -/
theorem extractTexts_error_of_blank (items : List JValue)
    (hbad : ∃ i ∈ items, lookupJ i "text" = some (.str "")) :
    isError (extractTexts items) = true := by
  induction items with
  | nil =>
    rcases hbad with ⟨i, hi, _⟩
    simp at hi
  | cons item rest ih =>
    rcases hbad with ⟨i, hi, hbl⟩
    rcases List.mem_cons.mp hi with rfl | hmem
    · cases i with
      | obj fs =>
        simp only [lookupJ] at hbl
        have hblank : truthy (JValue.str "") = false := rfl
        simp [extractTexts, dictGet, hbl, hblank, isError]
      | null => simp [lookupJ] at hbl
      | bool b => simp [lookupJ] at hbl
      | num n => simp [lookupJ] at hbl
      | str s => simp [lookupJ] at hbl
      | arr l => simp [lookupJ] at hbl
    · have hrec := ih ⟨i, hmem, hbl⟩
      simp only [extractTexts]
      cases hd : dictGet item "text" with
      | error e => simp [isError]
      | ok o =>
        cases o with
        | none => simp [isError]
        | some t =>
          by_cases htt : truthy t = true
          · simp only [htt, if_true]
            cases hrest : extractTexts rest with
            | error e => simp [isError]
            | ok ts => rw [hrest] at hrec; simp [isError] at hrec
          · simp [htt, isError]

/-- Folding the comprehension body over a singleton `{"text": x}` keeps a
singleton whose value is the last item (or `x` when there are none). -/
theorem foldl_dictSet_text (items : List String) (x : String) :
    items.foldl (fun d item => dictSet d "text" (.str item)) [("text", .str x)]
      = [("text", .str (items.getLastD x))] := by
  induction items generalizing x with
  | nil => rfl
  | cons y ys ih =>
    simp only [List.foldl_cons]
    have hset : dictSet [("text", JValue.str x)] "text" (.str y)
        = [("text", JValue.str y)] := by simp [dictSet]
    rw [hset, ih y, List.getLastD_cons]

/-- The comprehension over a nonempty item list is the singleton dict
holding the last item. -/
theorem textItemsDict_eq (items : List String) (h : items ≠ []) :
    textItemsDict items = [("text", .str (items.getLastD ""))] := by
  cases items with
  | nil => exact absurd rfl h
  | cons y ys =>
    simp only [textItemsDict, List.foldl_cons]
    have hset : dictSet [] "text" (.str y) = [("text", JValue.str y)] := by
      simp [dictSet]
    rw [hset, foldl_dictSet_text, List.getLastD_cons]

/-- Auxiliary for C5: a list with no content-delta and no bare-text event
yields nothing. -/
theorem stream_wrapper_nil_of_no_text (events : List JValue) :
    (∀ e ∈ events, isContentDelta e = false ∧ isBareText e = false) →
    stream_wrapper events = [] := by
  induction events with
  | nil => intro _; rfl
  | cons e rest ih =>
    intro h
    have he := h e (by simp)
    have hm : matchEvent e = none := by
      rw [matchEvent_eq_specFragment]
      simp [specFragment, he.1, he.2]
    simp only [stream_wrapper, hm]
    exact ih (fun x hx => h x (by simp [hx]))

/-! ### Claims -/

/-- C1: for every finite ordered list of input events, the sequence of
fragments yielded by `stream_wrapper` equals, in order, exactly the text
values of the events matching the content-delta shape
`{"contentBlockDelta": {"delta": {"text": ...}}}` plus bare text values
used directly, every other event shape contributing no fragment; in
particular a bare-text-only input list is passed through unchanged. -/
theorem c1_fragments_in_order :
    (∀ events : List JValue, stream_wrapper events = specFragments events)
    ∧ (∀ texts : List String,
        stream_wrapper (texts.map JValue.str) = texts.map JValue.str) := by
  constructor
  · intro events
    induction events with
    | nil => rfl
    | cons e rest ih =>
      simp only [stream_wrapper, specFragments, List.filterMap_cons,
        ← matchEvent_eq_specFragment]
      cases matchEvent e with
      | none => simpa [specFragments] using ih
      | some t => simpa [specFragments] using ih
  · intro texts
    induction texts with
    | nil => rfl
    | cons t rest ih => simp [stream_wrapper, matchEvent, lookupJ, ih]

/-- C2: with a sink supplied, at the instant of every yield the sink holds
its initial contents followed by exactly the fragments yielded so far, in
order (each fragment is written to the sink before it is yielded), and
after full consumption the final sink holds the concatenation of all
yielded fragments. -/
theorem c2_sink_tracks_fragments :
    ∀ (events sink0 : List JValue),
      ((streamTrace events sink0).map Prod.fst = stream_wrapper events)
      ∧ (∀ i (h : i < (streamTrace events sink0).length),
          ((streamTrace events sink0).get ⟨i, h⟩).2
            = sink0 ++ (stream_wrapper events).take (i + 1))
      ∧ (streamWrapperSink events (some sink0)).2
          = some (sink0 ++ stream_wrapper events) :=
  fun events sink0 =>
    ⟨streamTrace_fst events sink0,
     fun i h => streamTrace_get events sink0 i h,
     by rw [streamWrapperSink_snd]; rfl⟩

/-- Witness for C2 at a concrete event list and the second yield. -/
theorem c2_sink_tracks_fragments_witness :
    ((streamTrace [sampleDelta "Hi", sampleStop, sampleDelta " there"] []).get
        ⟨1, by decide⟩).2
      = [] ++ (stream_wrapper [sampleDelta "Hi", sampleStop,
          sampleDelta " there"]).take (1 + 1) :=
  (c2_sink_tracks_fragments [sampleDelta "Hi", sampleStop,
    sampleDelta " there"] []).2.1 1 (by decide)

/-- C5: an input list containing only events that are neither
content-delta shaped nor bare text yields the empty fragment sequence, and
the full adapter run over such a source (with no seek capability) raises
no error. -/
theorem c5_non_text_events_skipped (events : List JValue)
    (h : ∀ e ∈ events, isContentDelta e = false ∧ isBareText e = false) :
    stream_wrapper events = []
    ∧ (adapterRun { source := { events := events, pos := 0, seek := .absent },
                    sink := none, other := () }).2.1 = none :=
  ⟨stream_wrapper_nil_of_no_text events h, rfl⟩

/-- Witness for C5: only `messageStart`, `metadata` and `messageStop`. -/
theorem c5_non_text_events_skipped_witness :
    stream_wrapper [sampleStart, sampleMeta, sampleStop] = []
    ∧ (adapterRun { source := { events := [sampleStart, sampleMeta, sampleStop],
                                pos := 0, seek := .absent },
                    sink := none, other := () }).2.1 = none :=
  c5_non_text_events_skipped [sampleStart, sampleMeta, sampleStop] (by decide)

/-- C7: the fragment sequence yielded with a sink supplied is identical to
the one yielded without a sink — the sink never alters, adds to, or
removes from the downstream output. -/
theorem c7_sink_noninterference :
    ∀ (events sink0 : List JValue),
      (streamWrapperSink events (some sink0)).1
        = (streamWrapperSink events none).1 := by
  intro events sink0
  rw [streamWrapperSink_fst, streamWrapperSink_fst]

/-- C6 counterexample: the claim says a failure of the rewind call itself is
silently ignored and the fragment sequence still terminates cleanly, but
`stream.seek(0)` is called with no `try` around it: on a source whose
callable `seek` raises, the run ends with that exception instead of
terminating cleanly. -/
theorem c6_counterexample :
    (adapterRun { source := { events := [JValue.str "a"], pos := 0,
                              seek := .callable (some "OSError: not seekable") },
                  sink := none, other := () }).2.1 ≠ none := by
  simp [adapterRun, seekError]

/-- C6 (amended): after the source is exhausted the adapter invokes `seek`
iff the source exposes a callable one; absence (or a non-callable
attribute) is silently ignored and the run ends with no error; but an
exception raised by the rewind call itself propagates to the consumer —
only the fragments, all of which were already yielded, are unaffected. -/
theorem c6_seek_best_effort (events : List JValue) (sk : SeekAttr)
    (sink : Option (List JValue)) :
    (seekInvoked sk = true ↔ ∃ f, sk = SeekAttr.callable f)
    ∧ (adapterRun { source := { events := events, pos := 0, seek := sk },
                    sink := sink, other := () }).1 = stream_wrapper events
    ∧ (sk = SeekAttr.absent ∨ sk = SeekAttr.noncallable →
        (adapterRun { source := { events := events, pos := 0, seek := sk },
                      sink := sink, other := () }).2.1 = none)
    ∧ (∀ msg, sk = SeekAttr.callable (some msg) →
        (adapterRun { source := { events := events, pos := 0, seek := sk },
                      sink := sink, other := () }).2.1 = some msg) := by
  refine ⟨?_, ?_, ?_, ?_⟩
  · cases sk <;> simp [seekInvoked]
  · simp [adapterRun, streamWrapperSink_fst]
  · rintro (rfl | rfl) <;> rfl
  · intro msg h
    subst h
    rfl

/-- Witness for C6 (amended) at concrete seek attributes. -/
theorem c6_seek_best_effort_witness :
    (adapterRun { source := { events := [sampleDelta "Hi"], pos := 0,
                              seek := SeekAttr.absent },
                  sink := none, other := () }).2.1 = none
    ∧ (adapterRun { source := { events := [sampleDelta "Hi"], pos := 0,
                                seek := SeekAttr.callable (some "boom") },
                    sink := none, other := () }).2.1 = some "boom" :=
  ⟨(c6_seek_best_effort [sampleDelta "Hi"] .absent none).2.2.1 (Or.inl rfl),
   (c6_seek_best_effort [sampleDelta "Hi"] (.callable (some "boom")) none).2.2.2
     "boom" rfl⟩

/-- C8 counterexample: the claim says no state other than the sink is
modified, but on a source with a callable `seek` the adapter rewinds the
source at exhaustion: the final read position is `0`, not the drained
position `events.length` — the source's state is modified beyond its mere
consumption (here with no sink supplied at all). -/
theorem c8_counterexample :
    (adapterRun { source := { events := [JValue.str "a"], pos := 0,
                              seek := SeekAttr.callable none },
                  sink := none, other := () }).2.2.source.pos
      ≠ [JValue.str "a"].length := by
  simp [adapterRun, seekInvoked, seekError]

/-- C8 (amended): the run's observable effects are confined to the sink and
the source — any unrelated state is returned untouched, the sink is
extended by exactly the yielded fragments (and a missing sink stays
missing), and the source keeps its events and seek attribute, its position
ending rewound to `0` when a callable seek succeeds and at the drained
position otherwise; the adapter holds no state of its own across calls
(the run is a pure function of the world). -/
theorem c8_frame_effects (α : Type) (w : World α) :
    (adapterRun w).2.2.other = w.other
    ∧ (adapterRun w).2.2.sink = w.sink.map (fun s => s ++ (adapterRun w).1)
    ∧ (adapterRun w).2.2.source.events = w.source.events
    ∧ (adapterRun w).2.2.source.seek = w.source.seek
    ∧ (adapterRun w).2.2.source.pos
        = (if seekInvoked w.source.seek && (seekError w.source.seek).isNone
           then 0 else w.source.events.length) := by
  refine ⟨rfl, ?_, rfl, rfl, rfl⟩
  simp [adapterRun, streamWrapperSink_snd, streamWrapperSink_fst]

/-- C3: for every non-streamed response in which any link of the path
`output → message → content` is absent, the extraction raises an
assertion-style failure (a fully consumed run returns an error, never a
partial or empty list of texts). -/
theorem c3_missing_link_raises (r : JValue)
    (hs : lookupJ r "stream" = none)
    (hp : pathContent r = none) :
    isError (extract_assistant_text r) = true := by
  cases r with
  | null => rfl
  | bool b => rfl
  | num n => rfl
  | str s => rfl
  | arr l => rfl
  | obj rf =>
    simp only [lookupJ] at hs
    simp only [pathContent, lookupJ] at hp
    simp only [extract_assistant_text, dictGet, hs, truthyOpt]
    cases h1 : List.lookup "output" rf with
    | none => simp [isError]
    | some output =>
      rw [h1] at hp
      simp only [Option.some_bind] at hp
      simp only [h1]
      by_cases hto : truthy output = true
      · simp only [hto, if_true]
        cases output with
        | obj ofs =>
          dsimp only at hp
          simp only [dictGet]
          cases h2 : List.lookup "message" ofs with
          | none => simp [isError]
          | some message =>
            rw [h2] at hp
            simp only [Option.some_bind] at hp
            simp only [h2]
            by_cases htm : truthy message = true
            · simp only [htm, if_true]
              cases message with
              | obj mfs =>
                dsimp only at hp
                simp only [dictGet, hp]
                simp [isError]
              | null => simp [isError]
              | bool b => simp [isError]
              | num n => simp [isError]
              | str s => simp [isError]
              | arr l => simp [isError]
            · simp [htm, isError]
        | null => simp [isError]
        | bool b => simp [isError]
        | num n => simp [isError]
        | str s => simp [isError]
        | arr l => simp [isError]
      · simp [hto, isError]

/-- Witness for C3 at the spec's example `{"output": {}}`. -/
theorem c3_missing_link_raises_witness :
    isError (extract_assistant_text (JValue.obj [("output", JValue.obj [])])) = true :=
  c3_missing_link_raises (JValue.obj [("output", JValue.obj [])]) rfl rfl

/-- A response with the complete `output → message → content` path whose
single content item carries the empty-string text. -/
def blankTextResponse : JValue :=
  .obj [("output", .obj [("message", .obj [("content",
    .arr [.obj [("text", .str "")]])])])]

/-- C4 counterexample: the claim quantifies over every record with the
complete path of `{text: ...}` items, but on a complete path whose item
carries `"text": ""` the extraction raises (`assert (text := item.get("text"))`
is falsy on the empty string) instead of yielding `[""]`. -/
theorem c4_counterexample :
    extract_assistant_text blankTextResponse = .error "AssertionError: text"
    ∧ extract_assistant_text blankTextResponse ≠ .ok [JValue.str ""] := by
  constructor
  · rfl
  · rw [(show extract_assistant_text blankTextResponse
        = .error "AssertionError: text" from rfl)]
    exact fun h => Except.noConfusion h

/-- C4 (amended): for every non-streamed response record with the complete
nested path `output → message → content` to a nonempty list of
`{text: ...}` items whose text values are all truthy (e.g. nonempty
strings), the extraction yields exactly the text values in list order. -/
theorem c4_complete_extraction (rf ofs mfs : List (String × JValue))
    (texts : List JValue)
    (hs : List.lookup "stream" rf = none)
    (ho : List.lookup "output" rf = some (.obj ofs))
    (hm : List.lookup "message" ofs = some (.obj mfs))
    (hc : List.lookup "content" mfs
      = some (.arr (texts.map fun t => .obj [("text", t)])))
    (hne : texts ≠ [])
    (ht : ∀ t ∈ texts, truthy t = true) :
    extract_assistant_text (.obj rf) = .ok texts := by
  have hto : truthy (JValue.obj ofs) = true := truthy_obj_of_lookup hm
  have htm : truthy (JValue.obj mfs) = true := truthy_obj_of_lookup hc
  have hta : truthy (JValue.arr (texts.map fun t => JValue.obj [("text", t)]))
      = true := by
    cases texts with
    | nil => exact absurd rfl hne
    | cons a l => rfl
  simp only [extract_assistant_text, dictGet, hs, truthyOpt, ho, hto, if_true,
    hm, htm, hc, hta]
  exact extractTexts_map texts ht

/-- Witness for C4 (amended) at the spec's Hello/World example. -/
theorem c4_complete_extraction_witness :
    extract_assistant_text (JValue.obj [("output", JValue.obj [("message",
      JValue.obj [("content", JValue.arr ([JValue.str "Hello", JValue.str "World"].map
        fun t => JValue.obj [("text", t)]))])])])
      = .ok [JValue.str "Hello", JValue.str "World"] :=
  c4_complete_extraction _ _ _ _ rfl rfl rfl rfl (by simp) (by decide)

/-- C9: the extraction asserts truthiness, not mere presence — on a response
whose path `output → message → content` is fully present but whose content
list is empty, or one of whose items carries the empty-string text, a fully
consumed run raises an assertion failure. -/
theorem c9_truthiness_not_presence (rf ofs mfs : List (String × JValue))
    (items : List JValue)
    (hs : List.lookup "stream" rf = none)
    (ho : List.lookup "output" rf = some (.obj ofs))
    (hm : List.lookup "message" ofs = some (.obj mfs))
    (hc : List.lookup "content" mfs = some (.arr items))
    (hbad : items = [] ∨ ∃ i ∈ items, lookupJ i "text" = some (.str "")) :
    isError (extract_assistant_text (.obj rf)) = true := by
  have hto : truthy (JValue.obj ofs) = true := truthy_obj_of_lookup hm
  have htm : truthy (JValue.obj mfs) = true := truthy_obj_of_lookup hc
  rcases hbad with rfl | hbad
  · simp [extract_assistant_text, dictGet, hs, ho, hm, hc, hto, htm, truthyOpt,
      truthy, isError]
    split_ifs <;> rfl
  · have hne : items ≠ [] := by
      rcases hbad with ⟨i, hi, _⟩
      exact List.ne_nil_of_mem hi
    have hta : truthy (JValue.arr items) = true := by
      cases items with
      | nil => exact absurd rfl hne
      | cons a l => rfl
    have hrec := extractTexts_error_of_blank items hbad
    simp only [extract_assistant_text, dictGet, hs, truthyOpt, ho, hto, if_true,
      hm, htm, hc, hta]
    exact hrec

/-- Witness for C9: complete path, one item with the empty-string text. -/
theorem c9_truthiness_not_presence_witness :
    isError (extract_assistant_text (JValue.obj [("output", JValue.obj [("message",
      JValue.obj [("content", JValue.arr [JValue.obj [("text", JValue.str "")]])])])]))
      = true :=
  c9_truthiness_not_presence _ _ _ _ rfl rfl rfl rfl
    (Or.inr ⟨JValue.obj [("text", JValue.str "")], by simp, rfl⟩)

/-- C10: a call of `make_user_message` with two or more text items returns a
content holding one single block with only the last item (the constant-key
dict comprehension collapses all items), and a call preserves its input —
one block per item — exactly when it has a single item. -/
theorem c10_single_block_content :
    (∀ items : List String, 2 ≤ items.length →
      contentOf (make_user_message items)
        = some (.arr [.obj [("text", .str (items.getLastD ""))]]))
    ∧ (∀ items : List String,
        make_user_message items
          = .obj [("role", .str "user"),
                  ("content", .arr (items.map fun t => .obj [("text", .str t)]))]
        ↔ items.length = 1) := by
  constructor
  · intro items h2
    have hne : items ≠ [] := by
      intro h
      subst h
      simp at h2
    have hcontent : contentOf (make_user_message items)
        = some (JValue.arr [JValue.obj (textItemsDict items)]) := rfl
    rw [hcontent, textItemsDict_eq items hne]
  · intro items
    constructor
    · intro h
      have hc := congrArg contentOf h
      have hl : contentOf (make_user_message items)
          = some (JValue.arr [JValue.obj (textItemsDict items)]) := rfl
      have hr : contentOf (JValue.obj [("role", JValue.str "user"),
            ("content", JValue.arr (items.map fun t => JValue.obj [("text", JValue.str t)]))])
          = some (JValue.arr (items.map fun t => JValue.obj [("text", JValue.str t)])) := rfl
      rw [hl, hr] at hc
      injection hc with hc1
      injection hc1 with hc2
      have hlen := congrArg List.length hc2
      simpa using hlen.symm
    · intro h1
      cases items with
      | nil => simp at h1
      | cons t rest =>
        cases rest with
        | nil => rfl
        | cons b l => simp at h1

/-- Witness for C10 at a two-item and a one-item call. -/
theorem c10_single_block_content_witness :
    contentOf (make_user_message ["a", "b"])
      = some (JValue.arr [JValue.obj [("text", JValue.str (["a", "b"].getLastD ""))]])
    ∧ make_user_message ["c"]
      = JValue.obj [("role", JValue.str "user"),
          ("content", JValue.arr (["c"].map fun t => JValue.obj [("text", JValue.str t)]))] :=
  ⟨c10_single_block_content.1 ["a", "b"] (by decide),
   (c10_single_block_content.2 ["c"]).mpr rfl⟩
